import Mathlib

/-!
Verification of `src/mlpack/methods/ann/activation_functions/logistic_function.hpp`
(the `LogisticFunction` class of mlpack's ANN module).

The C++ code computes with IEEE doubles; the embedding works over the real
numbers `ℝ`.  The Armadillo primitives `arma::trunc_exp` and `arma::trunc_log`
differ from the plain exponential / logarithm only at floating-point overflow
and domain boundaries, which have no counterpart over `ℝ`; on every argument
the claims below evaluate them at, they coincide with `Real.exp` / `Real.log`.
Containers (Armadillo vectors/matrices) are embedded as a shape together with
the flat list of their elements, and the broadcast expressions of the
container overloads are embedded operation by operation.
-/

noncomputable section

namespace mlpack

namespace ann

/-- Real-number embedding of `arma::trunc_exp`: the truncated exponential
saturates only when `exp x` would overflow the floating-point range, a
condition that never occurs over `ℝ`, so over `ℝ` it is the exponential. -/
def trunc_exp (x : ℝ) : ℝ := Real.exp x

/-- Real-number embedding of `arma::trunc_log`: the truncated logarithm
coincides with the natural logarithm on strictly positive finite arguments
and saturates only at the floating-point domain boundary, which has no
counterpart over `ℝ`. -/
def trunc_log (x : ℝ) : ℝ := Real.log x

namespace LogisticFunction

/-- Scalar forward evaluation `LogisticFunction::fn(const double x)`:
`return 1.0 / (1.0 + arma::trunc_exp(-x));`. -/
def fn (x : ℝ) : ℝ := 1 / (1 + trunc_exp (-x))

/-- Scalar derivative `LogisticFunction::deriv(const double y)`:
`return y * (1 - y);`. -/
def deriv (y : ℝ) : ℝ := y * (1 - y)

/-- Scalar inverse `LogisticFunction::inv(const double y)`:
`return arma::trunc_log(y / (1 - y));`. -/
def inv (y : ℝ) : ℝ := trunc_log (y / (1 - y))

/-- An Armadillo numeric container: a shape (rows, columns) together with the
flat list of elements. -/
structure Mat where
  rows : Nat
  cols : Nat
  data : List ℝ

/-- Element-wise negation `-x` of a container. -/
def negM (m : Mat) : Mat := ⟨m.rows, m.cols, m.data.map (fun a => -a)⟩

/-- Element-wise `arma::trunc_exp` of a container. -/
def truncExpM (m : Mat) : Mat := ⟨m.rows, m.cols, m.data.map trunc_exp⟩

/-- Element-wise `arma::trunc_log` of a container. -/
def truncLogM (m : Mat) : Mat := ⟨m.rows, m.cols, m.data.map trunc_log⟩

/-- Broadcast scalar-plus-container `c + m`. -/
def scalarAdd (c : ℝ) (m : Mat) : Mat := ⟨m.rows, m.cols, m.data.map (fun a => c + a)⟩

/-- Broadcast scalar-minus-container `c - m`. -/
def scalarSub (c : ℝ) (m : Mat) : Mat := ⟨m.rows, m.cols, m.data.map (fun a => c - a)⟩

/-- Broadcast scalar-over-container `c / m`. -/
def scalarDiv (c : ℝ) (m : Mat) : Mat := ⟨m.rows, m.cols, m.data.map (fun a => c / a)⟩

/-- Element-wise (Schur) product `a % b` of two containers. -/
def elemMul (a b : Mat) : Mat :=
  ⟨a.rows, a.cols, List.zipWith (fun p q => p * q) a.data b.data⟩

/-- Element-wise quotient `a / b` of two containers. -/
def elemDiv (a b : Mat) : Mat :=
  ⟨a.rows, a.cols, List.zipWith (fun p q => p / q) a.data b.data⟩

/-- Container forward evaluation `LogisticFunction::fn(const InputVecType& x,
OutputVecType& y)`: `y = 1.0 / (1.0 + arma::trunc_exp(-x));`. -/
def fnM (x : Mat) : Mat := scalarDiv 1 (scalarAdd 1 (truncExpM (negM x)))

/-- Container derivative `LogisticFunction::deriv(const InputVecType& y,
OutputVecType& x)`: `x = y % (1.0 - y);`. -/
def derivM (y : Mat) : Mat := elemMul y (scalarSub 1 y)

/-- Container inverse `LogisticFunction::inv(const InputVecType& y,
OutputVecType& x)`: `x = arma::trunc_log(y / (1 - y));`. -/
def invM (y : Mat) : Mat := truncLogM (elemDiv y (scalarSub 1 y))

/-- The forward map as the specification writes it, `f(x) = 1 / (1 + e^(−x))`,
with the plain (untruncated) exponential, for comparison with `fn`. -/
def fnSpec (x : ℝ) : ℝ := 1 / (1 + Real.exp (-x))

/-- Claim C7: for every real `x`, `fn x + fn (-x) = 1` (exactly, hence within
any floating-point tolerance). -/
theorem fn_symmetry (x : ℝ) : fn x + fn (-x) = 1 := by
  unfold fn trunc_exp
  rw [neg_neg]
  have h1 : (0:ℝ) < 1 + Real.exp (-x) := by positivity
  have h2 : (0:ℝ) < 1 + Real.exp x := by positivity
  have hmul : Real.exp (-x) * Real.exp x = 1 := by
    rw [← Real.exp_add]
    simp
  field_simp
  nlinarith [hmul]

/-- Claim C1: the forward evaluation agrees with the closed form
`1/(1+e^(−x))` at every real `x`; `fn 0 = 0.5`; and `fn 1` is within `10⁻⁹`
of `0.731058578630`. -/
theorem fn_closed_form_and_values :
    (∀ x : ℝ, fn x = fnSpec x) ∧ fn 0 = 0.5 ∧
    |fn 1 - 0.731058578630| < 1e-9 := by
  refine ⟨fun x => rfl, ?_, ?_⟩
  · unfold fn trunc_exp
    norm_num
  · have hE1 : (2.7182818283:ℝ) < Real.exp 1 := Real.exp_one_gt_d9
    have hE2 : Real.exp 1 < 2.7182818286 := Real.exp_one_lt_d9
    have hfn : fn 1 = Real.exp 1 / (Real.exp 1 + 1) := by
      unfold fn trunc_exp
      rw [Real.exp_neg]
      have h0 : (0:ℝ) < Real.exp 1 := Real.exp_pos 1
      field_simp
    have hd : (0:ℝ) < Real.exp 1 + 1 := by positivity
    have key1 : Real.exp 1 / (Real.exp 1 + 1) < 0.731058578630 + 1e-9 := by
      rw [div_lt_iff hd]
      nlinarith
    have key2 : 0.731058578630 - 1e-9 < Real.exp 1 / (Real.exp 1 + 1) := by
      rw [lt_div_iff hd]
      nlinarith
    rw [hfn, abs_sub_lt_iff]
    constructor <;> linarith

/-- Claim C2: fn maps every real into the open interval (0,1); at extreme
magnitudes it saturates, with `fn 10⁶` within `10⁻⁹` of `1` and `fn (−10⁶)`
within `10⁻⁹` of `0`.  (Over `ℝ` the function is total and real-valued, so no
NaN or infinity can arise.) -/
theorem fn_open_interval_and_saturation :
    (∀ x : ℝ, 0 < fn x ∧ fn x < 1) ∧
    |fn 1000000 - 1| < 1e-9 ∧ |fn (-1000000) - 0| < 1e-9 := by
  have hbig : (1000000000:ℝ) < Real.exp 1000000 := by
    have h30 : Real.exp 30 = Real.exp 1 ^ 30 := by
      rw [← Real.exp_nat_mul]
      norm_num
    have h2e : (2:ℝ) ≤ Real.exp 1 := by
      nlinarith [Real.exp_one_gt_d9]
    have hpow : (2:ℝ) ^ 30 ≤ Real.exp 1 ^ 30 := by
      exact pow_le_pow_left (by norm_num) h2e 30
    have hle : Real.exp 30 ≤ Real.exp 1000000 := by
      exact Real.exp_le_exp.2 (by norm_num)
    have : (1000000000:ℝ) < 2 ^ 30 := by norm_num
    linarith
  refine ⟨fun x => ?_, ?_, ?_⟩
  · unfold fn trunc_exp
    have h : (0:ℝ) < 1 + Real.exp (-x) := by positivity
    constructor
    · positivity
    · rw [div_lt_one h]
      nlinarith [Real.exp_pos (-x)]
  · unfold fn trunc_exp
    have ht0 : (0:ℝ) < Real.exp (-(1000000:ℝ)) := Real.exp_pos _
    have ht : Real.exp (-(1000000:ℝ)) < 1e-9 := by
      rw [Real.exp_neg]
      have h9 : (0:ℝ) < Real.exp 1000000 := Real.exp_pos _
      rw [inv_lt h9 (by norm_num)]
      calc (1e-9:ℝ)⁻¹ = 1000000000 := by norm_num
        _ < Real.exp 1000000 := hbig
    have hd : (0:ℝ) < 1 + Real.exp (-(1000000:ℝ)) := by positivity
    rw [abs_sub_lt_iff]
    constructor
    · have : (1:ℝ) / (1 + Real.exp (-(1000000:ℝ))) < 1 := by
        rw [div_lt_one hd]
        linarith
      linarith
    · have : (1:ℝ) - 1e-9 < 1 / (1 + Real.exp (-(1000000:ℝ))) := by
        rw [lt_div_iff hd]
        nlinarith
      linarith
  · unfold fn trunc_exp
    rw [neg_neg]
    have h0 : (0:ℝ) < Real.exp (1000000:ℝ) := Real.exp_pos _
    have hd : (0:ℝ) < 1 + Real.exp (1000000:ℝ) := by positivity
    have hpos : (0:ℝ) < 1 / (1 + Real.exp (1000000:ℝ)) := by positivity
    have hlt : (1:ℝ) / (1 + Real.exp (1000000:ℝ)) < 1e-9 := by
      rw [div_lt_iff hd]
      nlinarith
    rw [abs_sub_lt_iff]
    constructor
    · linarith
    · linarith

/-- Claim C5: the derivative evaluation computes `y * (1 − y)` for every real
`y` with no domain restriction; on `(0,1)` it satisfies `0 < deriv y ≤ 0.25`;
and `deriv 0.5 = 0.25`. -/
theorem deriv_formula_and_range :
    (∀ y : ℝ, deriv y = y * (1 - y)) ∧
    (∀ y : ℝ, 0 < y → y < 1 → 0 < deriv y ∧ deriv y ≤ 0.25) ∧
    deriv 0.5 = 0.25 := by
  refine ⟨fun y => by unfold deriv; norm_num, fun y h0 h1 => ?_, by unfold deriv; norm_num⟩
  unfold deriv
  constructor
  · nlinarith
  · nlinarith [sq_nonneg (y - 0.5)]

/-- Witness for Claim C5 at the concrete interior point `y = 0.3`. -/
theorem deriv_formula_and_range_witness :
    (0:ℝ) < 0.3 ∧ (0.3:ℝ) < 1 ∧ (0 < deriv 0.3 ∧ deriv 0.3 ≤ 0.25) :=
  ⟨by norm_num, by norm_num, deriv_formula_and_range.2.1 0.3 (by norm_num) (by norm_num)⟩

/-- Claim C8: the forward evaluation is strictly monotonically increasing. -/
theorem fn_strictMono (x1 x2 : ℝ) (h : x1 < x2) : fn x1 < fn x2 := by
  unfold fn trunc_exp
  have he : Real.exp (-x2) < Real.exp (-x1) := Real.exp_lt_exp.2 (by linarith)
  have h1 : (0:ℝ) < 1 + Real.exp (-x1) := by positivity
  have h2 : (0:ℝ) < 1 + Real.exp (-x2) := by positivity
  rw [div_lt_div_iff h1 h2]
  nlinarith

/-- Witness for Claim C8 at the concrete pair `x1 = 0 < x2 = 1`. -/
theorem fn_strictMono_witness : (0:ℝ) < 1 ∧ fn 0 < fn 1 :=
  ⟨by norm_num, fn_strictMono 0 1 (by norm_num)⟩

/-- Claim C9: the derivative expression is symmetric about `y = 1/2`:
`deriv y = deriv (1 - y)` for every real `y`, and `deriv 0 = deriv 1 = 0`. -/
theorem deriv_reflection :
    (∀ y : ℝ, deriv y = deriv (1 - y)) ∧ deriv 0 = 0 ∧ deriv 1 = 0 := by
  refine ⟨fun y => ?_, ?_, ?_⟩ <;> unfold deriv <;> ring

/-- Claim C3: for every `y` with `0.001 ≤ y ≤ 0.999`, the forward evaluation
of the inverse returns the input, `fn (inv y) = y` (an exact identity over
`ℝ`, hence within any tolerance); and `inv 0.5 = 0`. -/
theorem fn_inv_round_trip :
    (∀ y : ℝ, 0.001 ≤ y → y ≤ 0.999 → fn (inv y) = y) ∧ inv 0.5 = 0 := by
  constructor
  · intro y h1 h2
    have hy : (0:ℝ) < y := by linarith
    have h1y : (0:ℝ) < 1 - y := by linarith
    have ht : (0:ℝ) < y / (1 - y) := by positivity
    unfold fn inv trunc_exp trunc_log
    rw [Real.exp_neg, Real.exp_log ht, inv_div]
    rw [show (1:ℝ) + (1 - y) / y = 1 / y by field_simp]
    field_simp
  · unfold inv trunc_log
    rw [show (0.5:ℝ) / (1 - 0.5) = 1 by norm_num]
    exact Real.log_one

/-- Witness for Claim C3 at the concrete interior point `y = 0.5`. -/
theorem fn_inv_round_trip_witness :
    (0.001:ℝ) ≤ 0.5 ∧ (0.5:ℝ) ≤ 0.999 ∧ fn (inv 0.5) = 0.5 :=
  ⟨by norm_num, by norm_num, fn_inv_round_trip.1 0.5 (by norm_num) (by norm_num)⟩

/-- Claim C10: for every real `x` whose forward output lies strictly inside
`(0,1)`, the inverse recovers the input: `inv (fn x) = x` (exactly over `ℝ`). -/
theorem inv_fn_round_trip (x : ℝ) (h1 : 0 < fn x) (h2 : fn x < 1) :
    inv (fn x) = x := by
  have hE : (0:ℝ) < Real.exp x := Real.exp_pos x
  have hne : Real.exp x + 1 ≠ 0 := by positivity
  have hfnx : fn x = Real.exp x / (Real.exp x + 1) := by
    unfold fn trunc_exp
    rw [Real.exp_neg]
    field_simp
  have hsub : (1:ℝ) - Real.exp x / (Real.exp x + 1) = 1 / (Real.exp x + 1) := by
    field_simp
  have harg : fn x / (1 - fn x) = Real.exp x := by
    rw [hfnx, hsub]
    field_simp
  unfold inv trunc_log
  rw [harg, Real.log_exp]

/-- Witness for Claim C10 at the concrete input `x = 0` (where `fn 0 = 0.5`). -/
theorem inv_fn_round_trip_witness :
    0 < fn 0 ∧ fn 0 < 1 ∧ inv (fn 0) = 0 := by
  have h0 : fn 0 = 0.5 := by
    unfold fn trunc_exp
    rw [neg_zero, Real.exp_zero]
    norm_num
  exact ⟨by rw [h0]; norm_num, by rw [h0]; norm_num,
    inv_fn_round_trip 0 (by rw [h0]; norm_num) (by rw [h0]; norm_num)⟩

/-- Combining each element of a list with the matching element of a mapped
copy of the same list is the same as a single element-wise map. -/
theorem zipWith_self_map (f : ℝ → ℝ → ℝ) (g : ℝ → ℝ) :
    ∀ l : List ℝ, List.zipWith f l (l.map g) = l.map (fun a => f a (g a))
  | [] => rfl
  | a :: l => by
    simp only [List.map_cons, List.zipWith_cons_cons, zipWith_self_map f g l]

/-- Claim C6: each container overload (`fnM`, `derivM`, `invM`) produces
exactly the element-wise map of the corresponding scalar operation over the
elements of its input, and preserves the shape (row count, column count, and
element count). -/
theorem container_matches_scalar (m : Mat) :
    ((fnM m).data = m.data.map fn ∧ (fnM m).rows = m.rows ∧
      (fnM m).cols = m.cols ∧ (fnM m).data.length = m.data.length) ∧
    ((derivM m).data = m.data.map deriv ∧ (derivM m).rows = m.rows ∧
      (derivM m).cols = m.cols ∧ (derivM m).data.length = m.data.length) ∧
    ((invM m).data = m.data.map inv ∧ (invM m).rows = m.rows ∧
      (invM m).cols = m.cols ∧ (invM m).data.length = m.data.length) := by
  have hfn : (fnM m).data = m.data.map fn := by
    unfold fnM scalarDiv scalarAdd truncExpM negM
    simp only [List.map_map]
    rfl
  have hderiv : (derivM m).data = m.data.map deriv := by
    unfold derivM elemMul scalarSub
    rw [zipWith_self_map]
    rfl
  have hinv : (invM m).data = m.data.map inv := by
    unfold invM truncLogM elemDiv scalarSub
    rw [zipWith_self_map]
    simp only [List.map_map]
    rfl
  refine ⟨⟨hfn, rfl, rfl, ?_⟩, ⟨hderiv, rfl, rfl, ?_⟩, ⟨hinv, rfl, rfl, ?_⟩⟩
  · rw [hfn, List.length_map]
  · rw [hderiv, List.length_map]
  · rw [hinv, List.length_map]

end LogisticFunction

end ann

end mlpack

end
